import Mathlib

/-!
Shallow embedding of the hurl HTTP client library (src/include/hurl.h) and
verification of its specification claims.

Strings (std::string used as text) are modelled as `List Char`; byte buffers
(request/response bodies, compressed data) are modelled as `List Nat` with
each byte below 256.  `std::map<std::string,std::string>` (httpparams and
the response header map) is modelled as an association list strictly sorted
by lexicographic key order, matching std::map's iteration order under
std::less<std::string>.
-/

set_option maxHeartbeats 1000000
set_option maxRecDepth 16000

namespace Hurl

/-- Text strings are lists of characters. -/
abbrev Str := List Char

/-- Convert a Lean string literal to the model's string type. -/
def str (s : String) : Str := s.data

/-- Model of C `isspace` in the default locale (space, \t, \n, \v, \f, \r). -/
def isspaceB (c : Char) : Bool :=
  c = ' ' || c = '\t' || c = '\n' || c.toNat = 11 || c.toNat = 12 || c = '\r'

/-- Model of `std::tolower` on one character (ASCII): maps A-Z to a-z. -/
def tolowerChar (c : Char) : Char :=
  if 'A' ≤ c && c ≤ 'Z' then Char.ofNat (c.toNat + 32) else c

/-- detail::tolower — lower-cases every character of the string. -/
def tolower (s : Str) : Str := s.map tolowerChar

/-- detail::ltrim — drops leading whitespace. -/
def ltrim (s : Str) : Str := s.dropWhile isspaceB

/-- detail::rtrim — drops trailing whitespace. -/
def rtrim (s : Str) : Str := (s.reverse.dropWhile isspaceB).reverse

/-- detail::trim — `ltrim(rtrim(s))`. -/
def trim (s : Str) : Str := ltrim (rtrim s)

/-- Lexicographic strict order on strings, as used by std::less<std::string>
(character comparison by code point, shorter prefix first). -/
def keyLt : Str → Str → Bool
  | [], [] => false
  | [], _ :: _ => true
  | _ :: _, [] => false
  | a :: as, b :: bs => if a < b then true else if b < a then false else keyLt as bs

theorem keyLt_irrefl (a : Str) : keyLt a a = false := by
  induction a with
  | nil => rfl
  | cons c cs ih => simp [keyLt, lt_irrefl, ih]

theorem keyLt_asymm (a b : Str) (h : keyLt a b = true) : keyLt b a = false := by
  induction a generalizing b with
  | nil =>
    cases b with
    | nil => simp [keyLt] at h
    | cons y ys => rfl
  | cons x xs ih =>
    cases b with
    | nil => simp [keyLt] at h
    | cons y ys =>
      simp only [keyLt] at h ⊢
      by_cases hxy : x < y
      · have : ¬ y < x := lt_asymm hxy
        simp [hxy, this]
      · by_cases hyx : y < x
        · simp [hxy, hyx] at h
        · simp only [hxy, if_false, hyx, if_false] at h ⊢
          exact ih ys h

theorem keyLt_trans (a b c : Str) (hab : keyLt a b = true) (hbc : keyLt b c = true) :
    keyLt a c = true := by
  induction a generalizing b c with
  | nil =>
    cases b with
    | nil => simp [keyLt] at hab
    | cons y ys =>
      cases c with
      | nil => simp [keyLt] at hbc
      | cons z zs => rfl
  | cons x xs ih =>
    cases b with
    | nil => simp [keyLt] at hab
    | cons y ys =>
      cases c with
      | nil => simp [keyLt] at hbc
      | cons z zs =>
        simp only [keyLt] at hab hbc ⊢
        by_cases hxy : x < y
        · by_cases hyz : y < z
          · simp [lt_trans hxy hyz]
          · by_cases hzy : z < y
            · simp [hyz, hzy] at hbc
            · have hyzeq : y = z := le_antisymm (not_lt.mp hzy) (not_lt.mp hyz)
              subst hyzeq
              simp [hxy]
        · by_cases hyx : y < x
          · simp [hxy, hyx] at hab
          · have hxyeq : x = y := le_antisymm (not_lt.mp hyx) (not_lt.mp hxy)
            subst hxyeq
            simp only [lt_irrefl, if_false] at hab
            by_cases hyz : x < z
            · simp [hyz]
            · by_cases hzy : z < x
              · simp [hyz, hzy] at hbc
              · simp only [hyz, if_false, hzy, if_false] at hbc ⊢
                exact ih ys zs hab hbc

theorem keyLt_conn (a b : Str) (hab : keyLt a b = false) (hba : keyLt b a = false) :
    a = b := by
  induction a generalizing b with
  | nil =>
    cases b with
    | nil => rfl
    | cons y ys => simp [keyLt] at hab
  | cons x xs ih =>
    cases b with
    | nil => simp [keyLt] at hba
    | cons y ys =>
      simp only [keyLt] at hab hba
      by_cases hxy : x < y
      · simp [hxy] at hab
      · by_cases hyx : y < x
        · simp [hxy, hyx] at hba
        · have hxyeq : x = y := le_antisymm (not_lt.mp hyx) (not_lt.mp hxy)
          subst hxyeq
          simp only [lt_irrefl, if_false] at hab hba
          rw [ih ys hab hba]

/-- An entry of the ordered map: key/value pair of strings. -/
abbrev Entry := Str × Str

/-- Strict key order between two map entries. -/
def entryLt (p q : Entry) : Prop := keyLt p.1 q.1 = true

instance : DecidableRel entryLt := fun p q => by
  unfold entryLt; infer_instance

instance : IsTrans Entry entryLt :=
  ⟨fun a b c hab hbc => keyLt_trans a.1 b.1 c.1 hab hbc⟩

instance : IsAntisymm Entry entryLt :=
  ⟨fun a b hab hba => absurd hba (by simp [entryLt, keyLt_asymm a.1 b.1 hab])⟩

/-- Insertion into a key-sorted association list, overwriting an existing
binding of the same key — the behavior of `std::map::operator[]` assignment. -/
def insertEntry (k v : Str) : List Entry → List Entry
  | [] => [(k, v)]
  | (k', v') :: rest =>
    if keyLt k k' then (k, v) :: (k', v') :: rest
    else if keyLt k' k then (k', v') :: insertEntry k v rest
    else (k, v) :: rest

/-- Lookup in an association list (first binding of the key). -/
def lookupEntry (k : Str) : List Entry → Option Str
  | [] => none
  | (k', v') :: rest => if k = k' then some v' else lookupEntry k rest

/-- The sortedness invariant of the map model: keys strictly increase. -/
def EntriesSorted (l : List Entry) : Prop := List.Sorted entryLt l

theorem insertEntry_mem_keys (k v : Str) (l : List Entry) :
    ∀ p ∈ insertEntry k v l, p.1 = k ∨ p ∈ l := by
  induction l with
  | nil => intro p hp; simp [insertEntry] at hp; simp [hp]
  | cons q rest ih =>
    rcases q with ⟨k', v'⟩
    intro p hp
    simp only [insertEntry] at hp
    split_ifs at hp with h1 h2
    · rcases List.mem_cons.mp hp with h | h
      · left; rw [h]
      · right; exact h
    · rcases List.mem_cons.mp hp with h | h
      · right; rw [h]; exact List.mem_cons_self _ _
      · rcases ih p h with h' | h'
        · left; exact h'
        · right; exact List.mem_cons_of_mem _ h'
    · rcases List.mem_cons.mp hp with h | h
      · left; rw [h]
      · right; exact List.mem_cons_of_mem _ h

theorem insertEntry_sorted (k v : Str) (l : List Entry) (hs : EntriesSorted l) :
    EntriesSorted (insertEntry k v l) := by
  induction l with
  | nil => simp [insertEntry, EntriesSorted, List.Sorted]
  | cons q rest ih =>
    rcases q with ⟨k', v'⟩
    have hhead : ∀ p ∈ rest, entryLt (k', v') p := (List.pairwise_cons.mp hs).1
    have hrest : EntriesSorted rest := (List.pairwise_cons.mp hs).2
    by_cases h1 : keyLt k k'
    · simp only [insertEntry, h1, if_true]
      apply List.pairwise_cons.mpr
      refine ⟨?_, hs⟩
      intro p hp
      rcases List.mem_cons.mp hp with h | h
      · rw [h]; exact h1
      · exact keyLt_trans k k' p.1 h1 (hhead p h)
    · by_cases h2 : keyLt k' k
      · simp only [insertEntry, h1, if_false, h2, if_true]
        apply List.pairwise_cons.mpr
        refine ⟨?_, ih hrest⟩
        intro p hp
        rcases insertEntry_mem_keys k v rest p hp with h | h
        · show keyLt k' p.1 = true
          rw [h]; exact h2
        · exact hhead p h
      · have hkeq : k' = k :=
          keyLt_conn k' k (by simpa using h2) (by simpa using h1)
        subst hkeq
        simp only [insertEntry, h1, if_false, h2, if_false]
        apply List.pairwise_cons.mpr
        exact ⟨hhead, hrest⟩

/-- Model of `std::map<std::string,std::string>`: a key-sorted association
list together with its sortedness invariant. -/
structure Smap where
  entries : List Entry
  sorted : EntriesSorted entries

/-- The empty map. -/
def Smap.empty : Smap := ⟨[], List.sorted_nil⟩

/-- Map update, i.e. `m[k] = v` via `std::map::operator[]`. -/
def Smap.insert (m : Smap) (k v : Str) : Smap :=
  ⟨insertEntry k v m.entries, insertEntry_sorted k v m.entries m.sorted⟩

/-- Map lookup. -/
def Smap.lookup (m : Smap) (k : Str) : Option Str := lookupEntry k m.entries

theorem Smap.ext_entries {m₁ m₂ : Smap} (h : m₁.entries = m₂.entries) : m₁ = m₂ := by
  cases m₁; cases m₂; simp_all

/-- Builds a map by repeated insertion, modelling std::map construction. -/
def fromList (l : List Entry) : Smap :=
  l.foldl (fun m p => m.insert p.1 p.2) Smap.empty

theorem lookupEntry_insertEntry_self (k v : Str) (l : List Entry) :
    lookupEntry k (insertEntry k v l) = some v := by
  induction l with
  | nil => simp [insertEntry, lookupEntry]
  | cons q rest ih =>
    rcases q with ⟨k', v'⟩
    by_cases h1 : keyLt k k'
    · simp [insertEntry, h1, lookupEntry]
    · by_cases h2 : keyLt k' k
      · have hne : k ≠ k' := by
          intro he; subst he; simp [keyLt_irrefl] at h2
        simp [insertEntry, h1, h2, lookupEntry, hne, ih]
      · have hkeq : k' = k :=
          keyLt_conn k' k (by simpa using h2) (by simpa using h1)
        subst hkeq
        simp [insertEntry, h1, h2, lookupEntry]

/-!
Percent-encoding (curl_easy_escape) and parameter serialization
(detail::serialize, detail::query).
-/

/-- Upper-case hexadecimal digit for a value below 16 (curl uses "%%%02X"). -/
def hexUpper (n : Nat) : Char :=
  if n < 10 then Char.ofNat (48 + n) else Char.ofNat (55 + n)

/-- Characters curl_easy_escape leaves unescaped: alphanumerics and -._~ . -/
def isUnreserved (c : Char) : Bool :=
  ('a' ≤ c && c ≤ 'z') || ('A' ≤ c && c ≤ 'Z') || ('0' ≤ c && c ≤ '9') ||
  c = '-' || c = '.' || c = '_' || c = '~'

/-- Percent-encoding of one byte as performed by curl_easy_escape. -/
def escapeChar (c : Char) : Str :=
  if isUnreserved c then [c]
  else ['%', hexUpper (c.toNat / 16 % 16), hexUpper (c.toNat % 16)]

/-- Model of curl_easy_escape over a whole string. -/
def escape (s : Str) : Str := s.flatMap escapeChar

/-- The loop body of detail::serialize: the stringstream accumulates `&`
before every pair except the first, then `escaped-key=escaped-value`. -/
def serializeEntries : List Entry → Bool → Str
  | [], _ => []
  | (k, v) :: rest, first =>
    (if first then [] else ['&']) ++ escape k ++ ['='] ++ escape v ++
      serializeEntries rest false

/-- detail::serialize — URL-encoded form of an httpparams map. -/
def serialize (params : Smap) : Str := serializeEntries params.entries true

/-- detail::query — `url + "?" + serialize(params)`. -/
def query (url : Str) (params : Smap) : Str := url ++ ['?'] ++ serialize params

theorem serializeEntries_false_eq (l : List Entry) :
    serializeEntries l false =
      l.flatMap (fun p => '&' :: (escape p.1 ++ ['='] ++ escape p.2)) := by
  induction l with
  | nil => rfl
  | cons p rest ih =>
    rcases p with ⟨k, v⟩
    simp [serializeEntries, ih, List.flatMap_cons]

theorem intercalate_cons₂ (s a b : Str) (t : List Str) :
    List.intercalate s (a :: b :: t) = a ++ s ++ List.intercalate s (b :: t) := by
  simp [List.intercalate, List.intersperse_cons_cons]

theorem serializeEntries_true_eq_intercalate (l : List Entry) :
    serializeEntries l true =
      List.intercalate ['&'] (l.map fun p => escape p.1 ++ ['='] ++ escape p.2) := by
  cases l with
  | nil => rfl
  | cons p rest =>
    rcases p with ⟨k, v⟩
    simp only [serializeEntries, if_true, List.nil_append, List.map_cons]
    rw [serializeEntries_false_eq]
    induction rest generalizing k v with
    | nil => simp [List.intercalate]
    | cons q t ih =>
      rcases q with ⟨k', v'⟩
      rw [List.map_cons, intercalate_cons₂, ← ih k' v']
      simp

/-!
Header-line parsing (detail::headerfunc) and supporting string search.
-/

/-- Model of `std::string::find(c)`: index of the first occurrence, if any. -/
def findChar (c : Char) : Str → Option Nat
  | [] => none
  | d :: rest => if d = c then some 0 else (findChar c rest).map (· + 1)

theorem findChar_none_iff (c : Char) (s : Str) :
    findChar c s = none ↔ c ∉ s := by
  induction s with
  | nil => simp [findChar]
  | cons d rest ih =>
    by_cases hd : d = c
    · subst hd; simp [findChar]
    · have hcd : ¬ c = d := fun h => hd h.symm
      simp [findChar, hd, hcd, Option.map_eq_none', ih]

theorem findChar_some_split (c : Char) (s : Str) (i : Nat)
    (h : findChar c s = some i) :
    s = s.take i ++ c :: s.drop (i + 1) ∧ c ∉ s.take i := by
  induction s generalizing i with
  | nil => simp [findChar] at h
  | cons d rest ih =>
    by_cases hd : d = c
    · subst hd
      simp [findChar] at h
      subst h
      simp
    · simp only [findChar, hd, if_false] at h
      cases hfc : findChar c rest with
      | none => rw [hfc] at h; simp at h
      | some j =>
        rw [hfc] at h
        simp only [Option.map_some', Option.some_inj] at h
        subst h
        have := ih j hfc
        constructor
        · calc d :: rest = d :: (rest.take j ++ c :: rest.drop (j + 1)) := by
                rw [← this.1]
            _ = (d :: rest.take j) ++ c :: rest.drop (j + 1) := by simp
            _ = (d :: rest).take (j + 1) ++ c :: (d :: rest).drop (j + 1 + 1) := by
                simp [List.take_succ_cons, List.drop_succ_cons]
        · simp only [List.take_succ_cons, List.mem_cons]
          intro hmem
          rcases hmem with h | h
          · exact hd h.symm
          · exact this.2 h

/-- detail::headerfunc — parses one received header line into the response's
header map: split at the first `:`, lower-case the name, trim the value,
store with overwrite; a line without `:` leaves the map unchanged. -/
def headerfunc (line : Str) (headers : Smap) : Smap :=
  match findChar ':' line with
  | none => headers
  | some cpos =>
    headers.insert (tolower (line.take cpos)) (trim (line.drop (cpos + 1)))

/-!
Exception taxonomy of the library (the exception classes of hurl.h plus
std::runtime_error raised by the codec helpers).
-/

/-- The exceptions the library can raise: hurl::timeout, hurl::resolve_error,
hurl::connect_error, hurl::curl_error(code), and std::runtime_error with a
message (used by the gzip/gunzip helpers). -/
inductive hexc where
  | timeout
  | resolve_error
  | connect_error
  | curl_error (code : Nat)
  | runtime_error (msg : String)
deriving DecidableEq

/-- CURLcode for success. -/
def CURLE_OK : Nat := 0
/-- CURLcode for a DNS resolution failure. -/
def CURLE_COULDNT_RESOLVE_HOST : Nat := 6
/-- CURLcode for a connection-establishment failure. -/
def CURLE_COULDNT_CONNECT : Nat := 7
/-- CURLcode for exceeding the configured timeout. -/
def CURLE_OPERATION_TIMEDOUT : Nat := 28

/-- detail::handle::perform — the result-code inspection after
curl_easy_perform: success returns silently, the three recognized failure
codes raise their dedicated exceptions, anything else raises curl_error
carrying the code. -/
def performResult (code : Nat) : Except hexc Unit :=
  if code = CURLE_OK then .ok ()
  else if code = CURLE_OPERATION_TIMEDOUT then .error .timeout
  else if code = CURLE_COULDNT_RESOLVE_HOST then .error .resolve_error
  else if code = CURLE_COULDNT_CONNECT then .error .connect_error
  else .error (.curl_error code)

/-!
Compression codec (detail::gzip / detail::gunzip).

Modelled from the spec: the zlib deflate/inflate streams invoked by
detail::gzip and detail::gunzip are external library code not part of this
repository.  Following spec section 4.1 — `compress` "produces a gzip-framed
stream equivalent to the input" and `decompress` "inflates a gzip-framed
stream", failing if the stream is malformed — the deflate payload is modelled
as a gzip-framed store of the input bytes: the 10-byte gzip header, a 4-byte
little-endian payload length, the payload, and a 4-byte checksum trailer.
-/

/-- Little-endian encoding of a number into the given count of bytes. -/
def natLE : Nat → Nat → List Nat
  | 0, _ => []
  | w + 1, n => n % 256 :: natLE w (n / 256)

/-- Value of a little-endian byte sequence. -/
def leVal : List Nat → Nat
  | [] => 0
  | b :: rest => b % 256 + 256 * leVal rest

/-- Model of the 32-bit integrity checksum in the gzip trailer. -/
def checksum (b : List Nat) : Nat := b.sum % 4294967296

/-- The fixed gzip stream header produced with MAX_WBITS+16 windowing. -/
def gzipHeaderBytes : List Nat := [31, 139, 8, 0, 0, 0, 0, 0, 0, 255]

/-- Modelled from the spec: detail::gzip — gzip-compresses a byte buffer
into a framed stream equivalent to the input (zlib deflate is external). -/
def gzip (input : List Nat) : List Nat :=
  gzipHeaderBytes ++ natLE 4 input.length ++ input ++ natLE 4 (checksum input)

/-- Modelled from the spec: detail::gunzip — inflates a gzip-framed stream,
raising std::runtime_error if the stream is malformed (zlib inflate is
external). -/
def gunzip (input : List Nat) : Except hexc (List Nat) :=
  if input.take 10 = gzipHeaderBytes then
    let rest := input.drop 10
    let n := leVal (rest.take 4)
    let payload := (rest.drop 4).take n
    if (rest.drop 4).length = n + 4 ∧ (rest.drop 4).drop n = natLE 4 (checksum payload)
    then .ok payload
    else .error (.runtime_error "failed to completely inflate")
  else .error (.runtime_error "failed to completely inflate")

theorem natLE_length (w n : Nat) : (natLE w n).length = w := by
  induction w generalizing n with
  | zero => rfl
  | succ w ih => simp [natLE, ih]

theorem leVal_natLE (w n : Nat) : leVal (natLE w n) = n % 256 ^ w := by
  induction w generalizing n with
  | zero => simp [natLE, leVal, Nat.mod_one]
  | succ w ih =>
    calc leVal (natLE (w + 1) n) = n % 256 % 256 + 256 * (n / 256 % 256 ^ w) := by
          simp [natLE, leVal, ih]
      _ = n % 256 + 256 * (n / 256 % 256 ^ w) := by rw [Nat.mod_mod_of_dvd _ dvd_rfl]
      _ = n % (256 * 256 ^ w) := (Nat.mod_mul).symm
      _ = n % 256 ^ (w + 1) := by rw [← pow_succ']

/-!
The HTTP response record.  The implementation stores status, body and the
accumulated header map (src/include/hurl.h httpresponse as used by the
implementation part of the file).
-/

/-- hurl::httpresponse — status code, response body and header map. -/
structure httpresponse where
  status : Int
  body : List Nat
  headers : Smap

/-- detail::process_response — if the accumulated headers contain
`content-encoding` and its value lower-cases to "gzip", the body is replaced
by its decompressed form; otherwise the response passes through unchanged. -/
def process_response (r : httpresponse) : Except hexc httpresponse :=
  match lookupEntry (str "content-encoding") r.headers.entries with
  | none => .ok r
  | some v =>
    if tolower v = str "gzip" then
      (gunzip r.body).map fun b => { r with body := b }
    else .ok r

/-!
Transport-handle state (detail::handle) and per-request configuration
(detail::prepare_basic, detail::prepare_post, detail::get, detail::post,
detail::download).
-/

/-- The CURLOPT_* options the implementation sets. -/
inductive curlopt where
  | url
  | nosignal
  | noprogress
  | writefunction
  | writedata
  | headerfunction
  | headerdata
  | cookiefile
  | timeout
  | httpheader
  | post
  | postfields
  | postfieldsize
  | cookielist
deriving DecidableEq

/-- Values passed to curl_easy_setopt: integers, strings, byte buffers,
and the opaque callback/sink pointers used by the implementation. -/
inductive optval where
  | vint (n : Int)
  | vstr (s : Str)
  | vbytes (b : List Nat)
  | vstreamfunc
  | vheaderfunc
  | vsinkptr
  | vrespptr
deriving DecidableEq

/-- State of a detail::handle: its pending outbound header list (curl_slist
headers_), the transport options set since the last reset (library defaults
are modelled as the empty option list), and the cookie store, which the
transport keeps across curl_easy_reset. -/
structure handlestate where
  pendingHeaders : List Str
  options : List (curlopt × optval)
  cookies : List Str
deriving DecidableEq

/-- detail::handle::add_header — appends one raw header line
(curl_slist_append appends at the end). -/
def add_header (h : Str) (s : handlestate) : handlestate :=
  { s with pendingHeaders := s.pendingHeaders ++ [h] }

/-- detail::handle::clear_headers — discards all pending headers. -/
def clear_headers (s : handlestate) : handlestate :=
  { s with pendingHeaders := [] }

/-- detail::handle::setopt — records one option setting (later settings of
the same option override earlier ones in the transport). -/
def setopt (o : curlopt) (v : optval) (s : handlestate) : handlestate :=
  { s with options := s.options ++ [(o, v)] }

/-- detail::handle::reset — clear_headers plus curl_easy_reset: pending
headers are dropped and options return to library defaults; the cookie
store is kept. -/
def reset (s : handlestate) : handlestate :=
  { pendingHeaders := [], options := [], cookies := s.cookies }

/-- detail::prepare_basic — resets the handle, then sets URL, NOSIGNAL,
NOPROGRESS, the write/header callbacks and sinks, enables the cookie
engine, sets the timeout, and (unless compression is declined) adds the
`Accept-encoding: gzip` outbound header. -/
def prepare_basic (s : handlestate) (url : Str) (tmo : Int)
    (accept_compression : Bool) : handlestate :=
  let s := reset s
  let s := setopt .url (.vstr url) s
  let s := setopt .nosignal (.vint 1) s
  let s := setopt .noprogress (.vint 1) s
  let s := setopt .writefunction .vstreamfunc s
  let s := setopt .writedata .vsinkptr s
  let s := setopt .headerfunction .vheaderfunc s
  let s := setopt .headerdata .vrespptr s
  let s := setopt .cookiefile (.vstr []) s
  let s := setopt .timeout (.vint tmo) s
  if accept_compression then add_header (str "Accept-encoding: gzip") s else s

/-- detail::prepare_post — marks the request as a POST with the given body,
adds the empty `Expect:` header unconditionally, and adds
`Content-Encoding: gzip` when the body was compressed. -/
def prepare_post (s : handlestate) (data : List Nat) (is_compressed : Bool) :
    handlestate :=
  let s := setopt .post (.vint 1) s
  let s := setopt .postfields (.vbytes data) s
  let s := setopt .postfieldsize (.vint data.length) s
  let s := add_header (str "Expect:") s
  if is_compressed then add_header (str "Content-Encoding: gzip") s else s

/-- Handle state at the moment detail::get calls perform. -/
def get_config (s : handlestate) (url : Str) (tmo : Int) : handlestate :=
  prepare_basic s url tmo true

/-- Handle state at the moment detail::post calls perform, paired with the
body bytes handed to CURLOPT_POSTFIELDS: bodies over 10240 bytes are
gzip-compressed first and flagged via the outbound header. -/
def post_config (s : handlestate) (url : Str) (data : List Nat) (tmo : Int) :
    handlestate × List Nat :=
  let s1 := prepare_basic s url tmo true
  let compressed := decide (10240 < data.length)
  let data' := if 10240 < data.length then gzip data else data
  (prepare_post s1 data' compressed, data')

/-- Handle state at the moment detail::download calls perform (download
declines compression). -/
def download_config (s : handlestate) (url : Str) (tmo : Int) : handlestate :=
  prepare_basic s url tmo false

/-!
The download operation with its file-system effect (detail::download): the
local file is opened with std::ios::trunc before the request is performed.
-/

/-- A file system: maps a path to the file's byte content, if it exists. -/
def Fs := Str → Option (List Nat)

/-- Point update of a file's content. -/
def fsWrite (fs : Fs) (p : Str) (content : List Nat) : Fs :=
  fun q => if q = p then some content else fs q

/-- Result of curl_easy_perform inside download: either a transport failure
after writing the given bytes into the sink, or success with a status code
and the bytes written. -/
inductive outcome where
  | failure (e : hexc) (written : List Nat)
  | success (status : Int) (written : List Nat)

/-- detail::download — opens (and truncates) the local file first, then
configures a GET without compression and performs it, the write callback
streaming received bytes into the file; a perform failure propagates after
the truncation and any partial writes already happened. -/
def download_run (s : handlestate) (fs : Fs) (url localpath : Str) (tmo : Int)
    (oc : outcome) : Except hexc httpresponse × Fs × handlestate :=
  let fs1 := fsWrite fs localpath []
  let s1 := download_config s url tmo
  match oc with
  | .failure e w => (.error e, fsWrite fs1 localpath w, s1)
  | .success st w =>
    (.ok { status := st, body := [], headers := Smap.empty },
     fsWrite fs1 localpath w, s1)

/-!
client::setcookie — the getline loop over the cookie data.
-/

theorem findChar_some_ne_nil {c : Char} {s : Str} {i : Nat}
    (h : findChar c s = some i) : s ≠ [] := by
  intro he; subst he; simp [findChar] at h

/-- One getline step per fuel unit; the loop in client::setcookie consumes
at least one character per iteration, so fuel `s.length + 1` is exact (the
zero-fuel fallback is unreachable from `getlineLines`). -/
def getline_loop : Nat → Str → List Str
  | 0, s => [s]
  | fuel + 1, s =>
    match findChar '\n' s with
    | some i => s.take i :: getline_loop fuel (s.drop (i + 1))
    | none => [s]

/-- The sequence of lines the `while (!ss.eof()) getline(ss, line)` loop in
client::setcookie extracts from the data: getline consumes up to and
including a newline; reaching end-of-input without a newline (including on
empty input) yields one final line and sets eof. -/
def getlineLines (s : Str) : List Str := getline_loop (s.length + 1) s

/-- client::setcookie — the argument of every CURLOPT_COOKIELIST setopt
call made, in order: first the "ALL" directive, then one call per line the
getline loop reads (empty lines included). -/
def setcookie_calls (data : Str) : List Str :=
  str "ALL" :: getlineLines data

/-- Joining lines with newlines: the left inverse of the getline split. -/
def joinLines : List Str → Str
  | [] => []
  | [l] => l
  | l :: rest => l ++ '\n' :: joinLines rest

theorem getline_loop_ne_nil (fuel : Nat) (s : Str) : getline_loop fuel s ≠ [] := by
  cases fuel with
  | zero => simp [getline_loop]
  | succ fuel =>
    cases hfc : findChar '\n' s <;> simp [getline_loop, hfc]

theorem joinLines_cons_of_ne_nil (l : Str) (t : List Str) (h : t ≠ []) :
    joinLines (l :: t) = l ++ '\n' :: joinLines t := by
  cases t with
  | nil => exact absurd rfl h
  | cons x xs => rfl

theorem joinLines_getline_loop (fuel : Nat) (s : Str) (h : s.length < fuel) :
    joinLines (getline_loop fuel s) = s := by
  induction fuel generalizing s with
  | zero => omega
  | succ fuel ih =>
    cases hfc : findChar '\n' s with
    | none => simp [getline_loop, hfc, joinLines]
    | some i =>
      have hsplit := findChar_some_split '\n' s i hfc
      have hne := findChar_some_ne_nil hfc
      have hpos : 0 < s.length := List.length_pos.mpr hne
      have hdrop : (s.drop (i + 1)).length < fuel := by
        rw [List.length_drop]
        omega
      rw [getline_loop, hfc,
        joinLines_cons_of_ne_nil _ _ (getline_loop_ne_nil fuel _), ih _ hdrop]
      exact hsplit.1.symm

theorem getline_loop_no_newline (fuel : Nat) (s : Str) (h : s.length < fuel) :
    ∀ l ∈ getline_loop fuel s, '\n' ∉ l := by
  induction fuel generalizing s with
  | zero => omega
  | succ fuel ih =>
    cases hfc : findChar '\n' s with
    | none =>
      intro l hl
      rw [getline_loop, hfc] at hl
      rcases List.mem_singleton.mp hl with rfl
      exact (findChar_none_iff '\n' l).mp hfc
    | some i =>
      have hsplit := findChar_some_split '\n' s i hfc
      have hne := findChar_some_ne_nil hfc
      have hpos : 0 < s.length := List.length_pos.mpr hne
      have hdrop : (s.drop (i + 1)).length < fuel := by
        rw [List.length_drop]
        omega
      intro l hl
      rw [getline_loop, hfc] at hl
      rcases List.mem_cons.mp hl with rfl | hl
      · exact hsplit.2
      · exact ih _ hdrop l hl

theorem findChar_isSome_of_mem {c : Char} {s : Str} (h : c ∈ s) :
    ∃ i, findChar c s = some i := by
  cases hfc : findChar c s with
  | none => exact absurd h ((findChar_none_iff c s).mp hfc)
  | some i => exact ⟨i, rfl⟩

/-!
Claim theorems.
-/

/-- C1: detail::handle::perform maps the transport result code as follows —
success returns normally, a timeout code raises hurl::timeout, a DNS
resolution failure raises hurl::resolve_error, a connection failure raises
hurl::connect_error, and every other non-success code raises
hurl::curl_error carrying that code; in particular a resolver failure never
surfaces as curl_error. -/
theorem C1_perform_error_mapping (code : Nat) :
    (code = CURLE_OK → performResult code = .ok ()) ∧
    (code = CURLE_OPERATION_TIMEDOUT → performResult code = .error .timeout) ∧
    (code = CURLE_COULDNT_RESOLVE_HOST →
      performResult code = .error .resolve_error) ∧
    (code = CURLE_COULDNT_CONNECT → performResult code = .error .connect_error) ∧
    (code ≠ CURLE_OK ∧ code ≠ CURLE_OPERATION_TIMEDOUT ∧
        code ≠ CURLE_COULDNT_RESOLVE_HOST ∧ code ≠ CURLE_COULDNT_CONNECT →
      performResult code = .error (.curl_error code)) ∧
    (∀ c, performResult CURLE_COULDNT_RESOLVE_HOST ≠ .error (.curl_error c)) := by
  refine ⟨?_, ?_, ?_, ?_, ?_, ?_⟩
  · intro h; subst h; rfl
  · intro h; subst h; rfl
  · intro h; subst h; rfl
  · intro h; subst h; rfl
  · rintro ⟨h1, h2, h3, h4⟩
    simp [performResult, h1, h2, h3, h4]
  · intro c
    simp [performResult, CURLE_OK, CURLE_OPERATION_TIMEDOUT,
      CURLE_COULDNT_RESOLVE_HOST, CURLE_COULDNT_CONNECT]

/-- Witness for C1 at the concrete result codes 0, 28, 6, 7 and 35. -/
theorem C1_perform_error_mapping_witness :
    performResult 0 = .ok () ∧
    performResult 28 = .error .timeout ∧
    performResult 6 = .error .resolve_error ∧
    performResult 7 = .error .connect_error ∧
    performResult 35 = .error (.curl_error 35) :=
  ⟨(C1_perform_error_mapping 0).1 rfl,
   (C1_perform_error_mapping 28).2.1 rfl,
   (C1_perform_error_mapping 6).2.2.1 rfl,
   (C1_perform_error_mapping 7).2.2.2.1 rfl,
   (C1_perform_error_mapping 35).2.2.2.2.1 (by decide)⟩

/-- C2: detail::post compresses the body and adds the outbound
`Content-Encoding: gzip` header exactly when the body length strictly
exceeds 10240 bytes; at or below 10240 bytes (including exactly 10240) the
body goes out unmodified and no Content-Encoding header is added (the
pending headers are exactly Accept-encoding and the empty Expect). -/
theorem C2_post_compression_threshold (s : handlestate) (url : Str)
    (data : List Nat) (tmo : Int) :
    (10240 < data.length →
      (post_config s url data tmo).2 = gzip data ∧
      (post_config s url data tmo).1.pendingHeaders =
        [str "Accept-encoding: gzip", str "Expect:",
         str "Content-Encoding: gzip"]) ∧
    (data.length ≤ 10240 →
      (post_config s url data tmo).2 = data ∧
      (post_config s url data tmo).1.pendingHeaders =
        [str "Accept-encoding: gzip", str "Expect:"] ∧
      str "Content-Encoding: gzip" ∉
        (post_config s url data tmo).1.pendingHeaders) := by
  constructor
  · intro h
    have hd : decide (10240 < data.length) = true := decide_eq_true h
    constructor
    · simp [post_config, if_pos h]
    · simp [post_config, prepare_post, prepare_basic, setopt, add_header,
        reset, hd, if_pos h]
  · intro h
    have h' : ¬ 10240 < data.length := not_lt.mpr h
    have hd : decide (10240 < data.length) = false := decide_eq_false h'
    have hph : (post_config s url data tmo).1.pendingHeaders =
        [str "Accept-encoding: gzip", str "Expect:"] := by
      simp [post_config, prepare_post, prepare_basic, setopt, add_header,
        reset, hd, if_neg h']
    refine ⟨?_, hph, ?_⟩
    · simp [post_config, if_neg h']
    · rw [hph]
      decide

/-- Witness for C2 at bodies of exactly 10241 and exactly 10240 zero bytes. -/
theorem C2_post_compression_threshold_witness :
    ((post_config ⟨[], [], []⟩ (str "http://h/p") (List.replicate 10241 0) 300).2 =
        gzip (List.replicate 10241 0) ∧
      (post_config ⟨[], [], []⟩ (str "http://h/p") (List.replicate 10241 0) 300).1.pendingHeaders =
        [str "Accept-encoding: gzip", str "Expect:",
         str "Content-Encoding: gzip"]) ∧
    ((post_config ⟨[], [], []⟩ (str "http://h/p") (List.replicate 10240 0) 300).2 =
        List.replicate 10240 0 ∧
      (post_config ⟨[], [], []⟩ (str "http://h/p") (List.replicate 10240 0) 300).1.pendingHeaders =
        [str "Accept-encoding: gzip", str "Expect:"] ∧
      str "Content-Encoding: gzip" ∉
        (post_config ⟨[], [], []⟩ (str "http://h/p") (List.replicate 10240 0) 300).1.pendingHeaders) :=
  ⟨(C2_post_compression_threshold ⟨[], [], []⟩ (str "http://h/p")
      (List.replicate 10241 0) 300).1
      (by rw [List.length_replicate]; omega),
   (C2_post_compression_threshold ⟨[], [], []⟩ (str "http://h/p")
      (List.replicate 10240 0) 300).2
      (by rw [List.length_replicate])⟩

/-- C3: decompressing the result of compressing any byte buffer yields the
buffer back (buffer length below 2^32, the codec's 32-bit size field). -/
theorem C3_gzip_roundtrip (B : List Nat) (h : B.length < 4294967296) :
    gunzip (gzip B) = .ok B := by
  have hH : gzipHeaderBytes.length = 10 := rfl
  have hL : (natLE 4 B.length).length = 4 := natLE_length 4 _
  have hassoc : gzip B =
      gzipHeaderBytes ++
        (natLE 4 B.length ++ (B ++ natLE 4 (checksum B))) := by
    simp [gzip]
  have hval : leVal (natLE 4 B.length) = B.length := by
    rw [leVal_natLE]
    exact Nat.mod_eq_of_lt (by simpa using h)
  have hlen : (B ++ natLE 4 (checksum B)).length = B.length + 4 := by
    simp [natLE_length]
  rw [gunzip, hassoc, List.take_left' hH, List.drop_left' hH, if_pos rfl]
  simp only [List.take_left' hL, List.drop_left' hL, hval, List.take_left,
    List.drop_left]
  rw [if_pos ⟨hlen, trivial⟩]

/-- Witness for C3 at the concrete buffer [1, 2, 3]. -/
theorem C3_gzip_roundtrip_witness :
    ([1, 2, 3] : List Nat).length < 4294967296 ∧
      gunzip (gzip [1, 2, 3]) = .ok [1, 2, 3] :=
  ⟨by decide, C3_gzip_roundtrip [1, 2, 3] (by decide)⟩

/-- C6: every request operation resets the handle first (prepare_basic
begins with reset), so the pending outbound headers and transport options
in effect when perform runs are determined by the request alone — they are
identical no matter what state a previous request left on the handle — and
the cookie store is the only state carried over. -/
theorem C6_handle_state_isolation (s s' : handlestate) (url : Str)
    (data : List Nat) (tmo : Int) :
    ((get_config s url tmo).pendingHeaders =
        (get_config s' url tmo).pendingHeaders ∧
      (get_config s url tmo).options = (get_config s' url tmo).options ∧
      (get_config s url tmo).cookies = s.cookies) ∧
    ((post_config s url data tmo).1.pendingHeaders =
        (post_config s' url data tmo).1.pendingHeaders ∧
      (post_config s url data tmo).1.options =
        (post_config s' url data tmo).1.options ∧
      (post_config s url data tmo).1.cookies = s.cookies) ∧
    ((download_config s url tmo).pendingHeaders =
        (download_config s' url tmo).pendingHeaders ∧
      (download_config s url tmo).options =
        (download_config s' url tmo).options ∧
      (download_config s url tmo).cookies = s.cookies) := by
  refine ⟨⟨rfl, rfl, rfl⟩, ?_, ⟨rfl, rfl, rfl⟩⟩
  by_cases h : 10240 < data.length <;>
    refine ⟨?_, ?_, ?_⟩ <;>
      simp [post_config, prepare_post, prepare_basic, setopt, add_header,
        reset, h]

/-- C7: detail::download truncates the file at localpath before performing
the request; when perform fails with no bytes received (unreachable host),
the error propagates with the file already created and empty, and for every
outcome the file exists afterwards. -/
theorem C7_download_truncates_before_perform (s : handlestate) (fs : Fs)
    (url localpath : Str) (tmo : Int) (e : hexc) (oc : outcome) :
    (download_run s fs url localpath tmo (.failure e [])).1 = .error e ∧
    (download_run s fs url localpath tmo (.failure e [])).2.1 localpath =
      some [] ∧
    (download_run s fs url localpath tmo oc).2.1 localpath ≠ none := by
  refine ⟨rfl, ?_, ?_⟩
  · simp [download_run, fsWrite]
  · cases oc <;> simp [download_run, fsWrite]

/-- C4: detail::headerfunc splits a received header line at its first `:`,
stores the lower-cased part before it as the name and the
whitespace-trimmed remainder as the value (overwriting any previous binding
of that name — last value wins), and ignores lines without `:`; the example
line "Content-Type: text/html; charset=utf-8\r\n" lands under
"content-type" with value "text/html; charset=utf-8". -/
theorem C4_header_line_parsing (line : Str) (m : Smap) :
    (':' ∉ line → headerfunc line m = m) ∧
    (':' ∈ line → ∃ pre post,
      line = pre ++ ':' :: post ∧ ':' ∉ pre ∧
      headerfunc line m = m.insert (tolower pre) (trim post) ∧
      (headerfunc line m).lookup (tolower pre) = some (trim post)) ∧
    ((headerfunc (str "Content-Type: text/html; charset=utf-8\r\n") m).lookup
        (str "content-type") = some (str "text/html; charset=utf-8")) := by
  refine ⟨?_, ?_, ?_⟩
  · intro h
    simp [headerfunc, (findChar_none_iff ':' line).mpr h]
  · intro h
    obtain ⟨i, hfc⟩ := findChar_isSome_of_mem h
    have hsplit := findChar_some_split ':' line i hfc
    refine ⟨line.take i, line.drop (i + 1), hsplit.1, hsplit.2, ?_, ?_⟩
    · simp [headerfunc, hfc]
    · simp [headerfunc, hfc, Smap.lookup, Smap.insert,
        lookupEntry_insertEntry_self]
  · have hfc : findChar ':' (str "Content-Type: text/html; charset=utf-8\r\n") =
        some 12 := by decide
    simp only [headerfunc, hfc, Smap.lookup, Smap.insert]
    rw [show tolower ((str "Content-Type: text/html; charset=utf-8\r\n").take 12) =
        str "content-type" from by decide,
      show trim ((str "Content-Type: text/html; charset=utf-8\r\n").drop 13) =
        str "text/html; charset=utf-8" from by decide]
    exact lookupEntry_insertEntry_self _ _ _

/-- Witness for C4 at the example header line over the empty header map. -/
theorem C4_header_line_parsing_witness :
    (':' ∈ str "Content-Type: text/html; charset=utf-8\r\n") ∧
    (∃ pre post,
      str "Content-Type: text/html; charset=utf-8\r\n" = pre ++ ':' :: post ∧
      ':' ∉ pre ∧
      headerfunc (str "Content-Type: text/html; charset=utf-8\r\n") Smap.empty =
        Smap.empty.insert (tolower pre) (trim post) ∧
      (headerfunc (str "Content-Type: text/html; charset=utf-8\r\n")
          Smap.empty).lookup (tolower pre) = some (trim post)) ∧
    (headerfunc (str "Content-Type: text/html; charset=utf-8\r\n")
        Smap.empty).lookup (str "content-type") =
      some (str "text/html; charset=utf-8") :=
  ⟨by decide,
   (C4_header_line_parsing (str "Content-Type: text/html; charset=utf-8\r\n")
      Smap.empty).2.1 (by decide),
   (C4_header_line_parsing (str "Content-Type: text/html; charset=utf-8\r\n")
      Smap.empty).2.2⟩

/-- C5: detail::process_response replaces the body by its gzip
decompression exactly when the header map holds content-encoding with a
value that lower-cases to "gzip"; with the header absent or naming any
other encoding the response passes through unchanged. -/
theorem C5_content_encoding_gate (r : httpresponse) :
    (lookupEntry (str "content-encoding") r.headers.entries = none →
      process_response r = .ok r) ∧
    (∀ v, lookupEntry (str "content-encoding") r.headers.entries = some v →
      tolower v = str "gzip" →
      process_response r = (gunzip r.body).map fun b => { r with body := b }) ∧
    (∀ v, lookupEntry (str "content-encoding") r.headers.entries = some v →
      tolower v ≠ str "gzip" →
      process_response r = .ok r) := by
  refine ⟨?_, ?_, ?_⟩
  · intro h
    simp [process_response, h]
  · intro v hv hg
    simp [process_response, hv, hg]
  · intro v hv hg
    simp [process_response, hv, hg]

/-- Witness for C5: a response declaring gzip encoding is decompressed, one
with no content-encoding passes through, and one declaring deflate passes
through. -/
theorem C5_content_encoding_gate_witness :
    process_response
        { status := 200, body := gzip [7, 8],
          headers := Smap.empty.insert (str "content-encoding") (str "GZip") } =
      ((gunzip (gzip [7, 8])).map fun b =>
        { status := 200, body := b,
          headers :=
            Smap.empty.insert (str "content-encoding") (str "GZip") }) ∧
    process_response { status := 200, body := [7, 8], headers := Smap.empty } =
      .ok { status := 200, body := [7, 8], headers := Smap.empty } ∧
    process_response
        { status := 200, body := [7, 8],
          headers := Smap.empty.insert (str "content-encoding") (str "deflate") } =
      .ok { status := 200, body := [7, 8],
            headers := Smap.empty.insert (str "content-encoding") (str "deflate") } :=
  ⟨(C5_content_encoding_gate _).2.1 (str "GZip") (by decide) (by decide),
   (C5_content_encoding_gate _).1 rfl,
   (C5_content_encoding_gate _).2.2 (str "deflate") (by decide) (by decide)⟩

/-- C8: detail::serialize percent-encodes each key and value, joins each
pair with `=` and the pairs with single `&` separators and no trailing
separator (the empty map gives the empty string), and detail::query returns
`url + "?" + serialize(params)`; serializing {"a": "1", "b": "2 3"} yields
"a=1&b=2%203". -/
theorem C8_serialize_and_query (url : Str) (params : Smap) :
    serialize Smap.empty = [] ∧
    serialize params =
      List.intercalate ['&']
        (params.entries.map fun p => escape p.1 ++ ['='] ++ escape p.2) ∧
    query url params = url ++ ['?'] ++ serialize params ∧
    serialize ((Smap.empty.insert (str "a") (str "1")).insert
        (str "b") (str "2 3")) = str "a=1&b=2%203" := by
  refine ⟨rfl, serializeEntries_true_eq_intercalate _, rfl, by decide⟩

/-- C9 counterexample: on "a\n\nb" the setcookie loop issues a cookie-store
setopt call for the empty middle line as well — three data calls, not the
two the claim's "one call per non-empty line, none for empty lines"
predicts. -/
theorem C9_counterexample_empty_lines :
    getlineLines (str "a\n\nb") = [str "a", str "", str "b"] ∧
    (getlineLines (str "a\n\nb")).filter (fun l => !l.isEmpty) =
      [str "a", str "b"] ∧
    setcookie_calls (str "a\n\nb") ≠
      str "ALL" :: (getlineLines (str "a\n\nb")).filter (fun l => !l.isEmpty) := by
  refine ⟨by decide, by decide, by decide⟩

/-- C9 (amended): client::setcookie issues one CURLOPT_COOKIELIST setopt
call carrying "ALL" and then exactly one call per line its getline loop
reads — including empty lines (an empty interior line, and the final empty
line read when the data is empty or ends in a newline, each get a call).
The lines read are precisely the newline-split of the data: they join back
to the data with single newlines and contain no newline themselves. -/
theorem C9_setcookie_line_replay (data : Str) :
    setcookie_calls data = str "ALL" :: getlineLines data ∧
    joinLines (getlineLines data) = data ∧
    (getlineLines data).all (fun l => !l.contains '\n') = true := by
  refine ⟨rfl, joinLines_getline_loop _ _ (Nat.lt_succ_self _), ?_⟩
  rw [List.all_eq_true]
  intro l hl
  have := getline_loop_no_newline (data.length + 1) data (Nat.lt_succ_self _) l hl
  simpa using this

/-- The key-sorted map model is extensional: two maps with the same entry
sets are equal. -/
theorem Smap.eq_of_same_entries (m1 m2 : Smap)
    (h : ∀ p : Entry, p ∈ m1.entries ↔ p ∈ m2.entries) : m1 = m2 := by
  apply Smap.ext_entries
  have hs1 : List.Sorted entryLt m1.entries := m1.sorted
  have hs2 : List.Sorted entryLt m2.entries := m2.sorted
  have hn1 : m1.entries.Nodup :=
    List.Pairwise.imp (fun hlt => by
      intro he; subst he; exact absurd hlt (by simp [entryLt, keyLt_irrefl])) hs1
  have hn2 : m2.entries.Nodup :=
    List.Pairwise.imp (fun hlt => by
      intro he; subst he; exact absurd hlt (by simp [entryLt, keyLt_irrefl])) hs2
  exact List.eq_of_perm_of_sorted
    ((List.perm_ext_iff_of_nodup hn1 hn2).mpr h) hs1 hs2

/-- C10: serialize is deterministic and order-canonical — a map built by
any insertion sequence has its entries in strictly ascending lexicographic
key order, and two maps holding exactly the same key/value pairs serialize
to the identical string. -/
theorem C10_serialize_order_canonical (l : List Entry) (m1 m2 : Smap) :
    List.Pairwise entryLt (fromList l).entries ∧
    ((∀ p : Entry, p ∈ m1.entries ↔ p ∈ m2.entries) →
      serialize m1 = serialize m2) := by
  refine ⟨(fromList l).sorted, ?_⟩
  intro h
  rw [Smap.eq_of_same_entries m1 m2 h]

/-- Witness for C10: the two insertion orders of {"a": "1", "b": "2"}
produce maps with the same pairs and the same serialization. -/
theorem C10_serialize_order_canonical_witness :
    (∀ p : Entry,
      p ∈ (fromList [(str "b", str "2"), (str "a", str "1")]).entries ↔
      p ∈ (fromList [(str "a", str "1"), (str "b", str "2")]).entries) ∧
    serialize (fromList [(str "b", str "2"), (str "a", str "1")]) =
      serialize (fromList [(str "a", str "1"), (str "b", str "2")]) := by
  have he : (fromList [(str "b", str "2"), (str "a", str "1")]).entries =
      (fromList [(str "a", str "1"), (str "b", str "2")]).entries := by decide
  have hmem : ∀ p : Entry,
      p ∈ (fromList [(str "b", str "2"), (str "a", str "1")]).entries ↔
      p ∈ (fromList [(str "a", str "1"), (str "b", str "2")]).entries :=
    fun p => by rw [he]
  exact ⟨hmem,
    (C10_serialize_order_canonical [] _ _).2 hmem⟩

end Hurl
